import Mathlib

/-!
Shallow embedding of httpqotdd (main.go): the quote parser, the quote
store (selection, reload, cache rotation) and the /health handler, with
theorems checking the specification's claims about them.

Conventions of the embedding:
* Go strings are Lean `String`s; every character that matters here is
  ASCII, so byte indexing and char indexing agree.
* `nil` pointers (`*[]string`, `*string`) are `Option` values.
* A draw from `math/rand`'s `rand.Intn n` is modelled by passing an
  arbitrary natural `r` and reducing it to `r % n`.
* Fallible I/O (`fetchQuotes`) is passed in as an `Except` value.
-/

namespace Httpqotdd

/-- Model of Go's `strings.HasPrefix` as a char-level prefix test
(equivalent to the byte-level one on the ASCII data involved). -/
def hasPrefix (line pre : String) : Bool :=
  pre.data.isPrefixOf line.data

/-- Model of the `dropCR` step of `bufio.ScanLines`: one trailing
carriage return, if present, is removed from a scanned line. -/
def dropCR (cs : List Char) : List Char :=
  if cs.getLast? = some '\r' then cs.dropLast else cs

/-- Accumulating loop of the line scanner (`bufio.Scanner` with
`ScanLines`): `acc` holds the current line's characters in reverse; a
newline emits the accumulated line, and a non-empty final remainder is
emitted as a last line at end of input. -/
def scanLinesAux : List Char → List Char → List String
  | acc, [] => if acc.isEmpty then [] else [String.mk (dropCR acc.reverse)]
  | acc, c :: cs =>
    if c = '\n' then String.mk (dropCR acc.reverse) :: scanLinesAux [] cs
    else scanLinesAux (c :: acc) cs

/-- Lines produced by `bufio.Scanner` on the whole input. -/
def scanLines (s : String) : List String :=
  scanLinesAux [] s.data

/-- Loop of `parseQuotes` (main.go lines 110-129) over the scanned lines,
with the unconditional trailing append of the accumulator (line 131) at
end of input. `qs` is the result list, `acc` the paragraph accumulator. -/
def parseLoop : List String → List String → List String → List String
  | qs, acc, [] => qs ++ [String.intercalate "\n" acc]
  | qs, acc, line :: rest =>
    if hasPrefix line "#" then
      parseLoop qs acc rest
    else
      let l1 := if hasPrefix line "\\#" then String.mk (line.data.drop 1) else line
      if l1.length > 0 then
        parseLoop qs (acc ++ [if l1 = "\\" then "" else l1]) rest
      else if acc.length > 0 then
        parseLoop (qs ++ [String.intercalate "\n" acc]) [] rest
      else
        parseLoop qs acc rest

/-- `parseQuotes` (main.go lines 105-133): scan the input into lines, run
the loop, and return the quotes together with an always-`none` error. -/
def parseQuotes (s : String) : List String × Option String :=
  (parseLoop [] [] (scanLines s), none)

/-- The shared mutable state of the store: the globals `quotes *[]string`
and `quote *string` (main.go lines 31-33); `none` models a nil pointer. -/
structure Store where
  quotes : Option (List String)
  quote : Option String
deriving DecidableEq

/-- `nextQuoteRaw` (main.go lines 146-153): `nil`/empty set gives no
selection, otherwise the element at `rand.Intn len`, modelled as `r % len`
for the arbitrary draw `r`. -/
def nextQuoteRaw (st : Store) (r : Nat) : Option String :=
  match st.quotes with
  | none => none
  | some qs =>
    if h : qs.length = 0 then none
    else some (qs.get ⟨r % qs.length, Nat.mod_lt r (Nat.pos_of_ne_zero h)⟩)

/-- `selectQuote` (main.go lines 135-144): with caching enabled
(`cache > 0`) return the cached quote, otherwise draw fresh. -/
def selectQuote (cache : Nat) (st : Store) (r : Nat) : Option String :=
  if cache > 0 then st.quote else nextQuoteRaw st r

/-- `reloadQuotes` (main.go lines 155-168), with the outcome of
`fetchQuotes` passed in: on error, return it with the store untouched; on
success, install the new set and re-draw the cached quote from it. -/
def reloadQuotes (fetched : Except String (List String)) (st : Store) (r : Nat) :
    Option String × Store :=
  match fetched with
  | Except.error e => (some e, st)
  | Except.ok newQuotes =>
    let st1 : Store := { quotes := some newQuotes, quote := st.quote }
    (none, { st1 with quote := nextQuoteRaw st1 r })

/-- Body of one tick of the cache rotator goroutine (main.go lines
217-221): re-draw the cached quote from the current set. -/
def rotateCache (st : Store) (r : Nat) : Store :=
  { st with quote := nextQuoteRaw st r }

/-- Status written by the `/health` handler (main.go lines 179-183). The
Go condition is `quotes != nil || len(*quotes) == 0`, evaluated with
short-circuiting: a non-nil pointer already satisfies the first disjunct
(status 503), and a nil pointer reaches `len(*quotes)`, a nil-pointer
dereference, modelled as `none` (panic); writing nothing yields the
implicit status 200. -/
def healthStatus (quotes : Option (List String)) : Option Nat :=
  if quotes ≠ none then some 503
  else
    match quotes with
    | none => none
    | some qs => if qs.length = 0 then some 503 else some 200

/-- Modelled from the spec: the serialization step of the round-trip
property, joining a list of quotes with blank lines. This operation exists
only in the spec's property, not in main.go. -/
def joinWithBlankLines : List String → String
  | [] => ""
  | [q] => q
  | q :: rest => q ++ "\n\n" ++ joinWithBlankLines rest

/-- Conditions on a single quote under which the blank-line round-trip is
exact: single-line (no newline, no carriage return), non-empty, no
leading `#`, no leading `\#`, and not the bare `\` escape. -/
def goodQuote (q : String) : Prop :=
  q.data ≠ [] ∧ (∀ c ∈ q.data, c ≠ '\n' ∧ c ≠ '\r') ∧
    hasPrefix q "#" = false ∧ hasPrefix q "\\#" = false ∧ q ≠ "\\"

instance (q : String) : Decidable (goodQuote q) := by
  unfold goodQuote; infer_instance

example : parseQuotes "first\n\n# a comment\nsecond\nline\n" =
    (["first", "second\nline"], none) := by decide

example : scanLines "a\r\nb" = ["a", "b"] := by decide

example : parseQuotes "" = ([""], none) := by decide

/-- C1: the claim (health is 200 when the store holds at least one quote)
is refuted by the code: with the store holding the single quote "q", the
handler's condition `quotes != nil || len(*quotes) == 0` is already
satisfied by its first disjunct, so 503 is written, never 200. -/
theorem c1_health_reports_503_when_healthy :
    healthStatus (some ["q"]) = some 503 ∧ healthStatus (some ["q"]) ≠ some 200 := by
  decide

/-- C4: a post-startup reload whose fetch/parse fails returns the error
and leaves the store (QuoteSet and CachedSelection) completely
unchanged. -/
theorem c4_reload_error_is_atomic (e : String) (st : Store) (r : Nat) :
    reloadQuotes (Except.error e) st r = (some e, st) := rfl

/-- C6: with caching enabled `selectQuote` returns the cached selection
verbatim and ignores the random draw: two calls on the same store agree
regardless of the random values supplied. -/
theorem c6_cached_select_deterministic (cache : Nat) (hc : 0 < cache) (st : Store)
    (r1 r2 : Nat) :
    selectQuote cache st r1 = st.quote ∧
      selectQuote cache st r1 = selectQuote cache st r2 := by
  simp [selectQuote, hc]

theorem c6_witness :
    selectQuote 1 ⟨some ["a", "b"], some "a"⟩ 5 = some "a" ∧
      selectQuote 1 ⟨some ["a", "b"], some "a"⟩ 5 =
        selectQuote 1 ⟨some ["a", "b"], some "a"⟩ 99 :=
  c6_cached_select_deterministic 1 (by decide) ⟨some ["a", "b"], some "a"⟩ 5 99

/-- C7: lines whose first character is `#` are discarded entirely; the
input line `\#foo` parses to the retained content line `#foo`; a line
that is exactly one backslash becomes an empty content line appended to
the current paragraph (not a terminator), so `a`,`\`,`b` join to
`a\n\nb`. -/
theorem c7_comments_and_escapes :
    (∀ qs acc line rest, hasPrefix line "#" = true →
        parseLoop qs acc (line :: rest) = parseLoop qs acc rest) ∧
      (parseQuotes "\\#foo").1 = ["#foo"] ∧
      (∀ qs acc rest, parseLoop qs acc ("\\" :: rest) = parseLoop qs (acc ++ [""]) rest) ∧
      (parseQuotes "a\n\\\nb").1 = ["a\n\nb"] := by
  refine ⟨?_, by decide, ?_, by decide⟩
  · intro qs acc line rest h
    simp [parseLoop, h]
  · intro qs acc rest
    rfl

theorem c7_witness :
    parseLoop [] [] ["# note", "x"] = parseLoop [] [] ["x"] :=
  c7_comments_and_escapes.1 [] [] "# note" ["x"] (by decide)

/-- C8: at end of input the parser always joins and appends the current
accumulator, even when it is empty; an entirely blank source and a source
that is a single blank line each parse to exactly one quote, the empty
string. -/
theorem c8_trailing_accumulator :
    (∀ qs acc, parseLoop qs acc [] = qs ++ [String.intercalate "\n" acc]) ∧
      parseQuotes "\n" = ([""], none) ∧ parseQuotes "" = ([""], none) :=
  ⟨fun _ _ => rfl, by decide, by decide⟩

/-- C9: running the cache rotator's per-tick selection while the quote
set is empty or unset leaves the cached selection absent and the quote
set untouched (the embedding is total, so no error or panic arises). -/
theorem c9_rotate_on_empty (st : Store) (r : Nat)
    (h : st.quotes = none ∨ st.quotes = some []) :
    (rotateCache st r).quote = none ∧ (rotateCache st r).quotes = st.quotes := by
  rcases h with h | h <;> simp [rotateCache, nextQuoteRaw, h]

theorem c9_witness :
    (rotateCache ⟨some [], some "x"⟩ 7).quote = none ∧
      (rotateCache ⟨some [], some "x"⟩ 7).quotes = some [] :=
  c9_rotate_on_empty ⟨some [], some "x"⟩ 7 (Or.inr rfl)

theorem nextQuoteRaw_none (oq : Option String) (r : Nat) :
    nextQuoteRaw ⟨none, oq⟩ r = none := rfl

theorem nextQuoteRaw_nil (oq : Option String) (r : Nat) :
    nextQuoteRaw ⟨some [], oq⟩ r = none := rfl

theorem nextQuoteRaw_some (qs : List String) (oq : Option String) (r : Nat)
    (hl : qs.length ≠ 0) :
    nextQuoteRaw ⟨some qs, oq⟩ r
      = some (qs.get ⟨r % qs.length, Nat.mod_lt r (Nat.pos_of_ne_zero hl)⟩) := by
  simp [nextQuoteRaw, hl]

/-- C3: a successful reload installs a cached selection drawn from the
just-installed set: absent when the new set is empty, an element of the
new set otherwise; with caching enabled, any select performed on the
resulting store returns exactly that cached selection. -/
theorem c3_reload_recomputes_cache (cache : Nat) (hc : 0 < cache) (st : Store)
    (S2 : List String) (r : Nat) :
    (S2 = [] → (reloadQuotes (Except.ok S2) st r).2.quote = none) ∧
      (S2 ≠ [] → ∃ q, (reloadQuotes (Except.ok S2) st r).2.quote = some q ∧ q ∈ S2) ∧
      (∀ r2, selectQuote cache (reloadQuotes (Except.ok S2) st r).2 r2 =
        (reloadQuotes (Except.ok S2) st r).2.quote) := by
  refine ⟨?_, ?_, ?_⟩
  · intro h
    subst h
    simp [reloadQuotes, nextQuoteRaw]
  · intro h
    have hl : S2.length ≠ 0 := by simpa using h
    refine ⟨S2.get ⟨r % S2.length, Nat.mod_lt r (Nat.pos_of_ne_zero hl)⟩, ?_,
      List.get_mem _ _ _⟩
    show nextQuoteRaw ⟨some S2, st.quote⟩ r = _
    exact nextQuoteRaw_some S2 st.quote r hl
  · intro r2
    simp [selectQuote, hc]

theorem c3_witness :
    (∃ q, (reloadQuotes (Except.ok ["n1", "n2"]) ⟨some ["old"], some "old"⟩ 0).2.quote
        = some q ∧ q ∈ ["n1", "n2"]) ∧
      selectQuote 1 (reloadQuotes (Except.ok ["n1", "n2"]) ⟨some ["old"], some "old"⟩ 0).2 9 =
        (reloadQuotes (Except.ok ["n1", "n2"]) ⟨some ["old"], some "old"⟩ 0).2.quote :=
  ⟨(c3_reload_recomputes_cache 1 (by decide) ⟨some ["old"], some "old"⟩ ["n1", "n2"] 0).2.1
      (by decide),
    (c3_reload_recomputes_cache 1 (by decide) ⟨some ["old"], some "old"⟩ ["n1", "n2"] 0).2.2 9⟩

/-- C5: with caching disabled, a select only ever returns members of the
current quote set; every index of the set is returned for a suitable
random draw; and the result is absent exactly when the set is empty or
unset. -/
theorem c5_uncached_select (st : Store) :
    (∀ r q, selectQuote 0 st r = some q → ∃ qs, st.quotes = some qs ∧ q ∈ qs) ∧
      (∀ qs, st.quotes = some qs → ∀ i, ∀ h : i < qs.length,
        ∃ r, selectQuote 0 st r = some (qs.get ⟨i, h⟩)) ∧
      (∀ r, selectQuote 0 st r = none ↔ (st.quotes = none ∨ st.quotes = some [])) := by
  obtain ⟨oqs, oq⟩ := st
  have hsel : ∀ r, selectQuote 0 ⟨oqs, oq⟩ r = nextQuoteRaw ⟨oqs, oq⟩ r := by
    intro r
    simp [selectQuote]
  refine ⟨?_, ?_, ?_⟩
  · intro r q h
    rw [hsel] at h
    cases oqs with
    | none => exact absurd h (by simp [nextQuoteRaw_none])
    | some qs =>
      by_cases hl : qs.length = 0
      · rw [List.length_eq_zero.mp hl, nextQuoteRaw_nil] at h
        exact absurd h (by simp)
      · rw [nextQuoteRaw_some qs oq r hl] at h
        exact ⟨qs, rfl, Option.some.inj h ▸ List.get_mem _ _ _⟩
  · intro qs hq i h
    have hq2 : oqs = some qs := hq
    subst hq2
    refine ⟨i, ?_⟩
    have hl : qs.length ≠ 0 := Nat.pos_iff_ne_zero.mp (Nat.lt_of_le_of_lt (Nat.zero_le i) h)
    rw [hsel, nextQuoteRaw_some qs oq i hl]
    exact congrArg some (congrArg qs.get (Fin.ext (Nat.mod_eq_of_lt h)))
  · intro r
    rw [hsel]
    cases oqs with
    | none => simp [nextQuoteRaw_none]
    | some qs =>
      by_cases hl : qs.length = 0
      · rw [List.length_eq_zero.mp hl, nextQuoteRaw_nil]
        simp
      · rw [nextQuoteRaw_some qs oq r hl]
        have hne : qs ≠ [] := fun e => hl (by simp [e])
        simp [hne]

theorem c5_witness :
    (∃ qs, (Store.mk (some ["a", "b"]) none).quotes = some qs ∧ "b" ∈ qs) ∧
      (∃ r, selectQuote 0 (Store.mk (some ["a", "b"]) none) r = some "a") ∧
      selectQuote 0 (Store.mk (some []) none) 0 = none :=
  ⟨(c5_uncached_select (Store.mk (some ["a", "b"]) none)).1 1 "b" (by decide),
    (c5_uncached_select (Store.mk (some ["a", "b"]) none)).2.1 ["a", "b"] rfl 0 (by decide),
    ((c5_uncached_select (Store.mk (some []) none)).2.2 0).mpr (Or.inr rfl)⟩

theorem parseLoop_length (ls : List String) :
    ∀ qs acc, qs.length + 1 ≤ (parseLoop qs acc ls).length := by
  induction ls with
  | nil =>
    intro qs acc
    simp [parseLoop]
  | cons line rest ih =>
    intro qs acc
    simp only [parseLoop]
    split
    · exact ih qs acc
    · generalize (if hasPrefix line "\\#" then String.mk (line.data.drop 1) else line) = l1
      split
      · exact ih qs _
      · split
        · have h1 := ih (qs ++ [String.intercalate "\n" acc]) []
          have h2 : qs.length + 1 ≤ (qs ++ [String.intercalate "\n" acc]).length := by
            simp
          exact Nat.le_trans h2 (Nat.le_of_succ_le h1)
        · exact ih qs acc

/-- C10: for every input, `parseQuotes` returns a nil error and at least
one quote (the trailing accumulator is appended unconditionally), so a
successful reload always installs a non-empty quote set. -/
theorem c10_parse_never_empty (s : String) (st : Store) (r : Nat) :
    (parseQuotes s).2 = none ∧ 1 ≤ (parseQuotes s).1.length ∧
      ∃ qs, (reloadQuotes (Except.ok (parseQuotes s).1) st r).2.quotes = some qs ∧
        qs ≠ [] := by
  refine ⟨rfl, parseLoop_length (scanLines s) [] [], (parseQuotes s).1, rfl, ?_⟩
  intro h
  have h1 : parseLoop [] [] (scanLines s) = [] := h
  have h2 := parseLoop_length (scanLines s) [] []
  rw [h1] at h2
  simp at h2

theorem scanLinesAux_append (cs : List Char) :
    ∀ acc rest, (∀ c ∈ cs, c ≠ '\n') →
      scanLinesAux acc (cs ++ rest) = scanLinesAux (cs.reverse ++ acc) rest := by
  induction cs with
  | nil =>
    intro acc rest _
    simp
  | cons c cs ih =>
    intro acc rest h
    have hc : c ≠ '\n' := h c (by simp)
    simp only [List.cons_append, scanLinesAux, if_neg hc, List.append_eq]
    rw [ih (c :: acc) rest (fun x hx => h x (List.mem_cons_of_mem _ hx))]
    simp [List.append_assoc]

theorem dropCR_no_cr (cs : List Char) (h : ∀ c ∈ cs, c ≠ '\r') : dropCR cs = cs := by
  unfold dropCR
  cases hl : cs.getLast? with
  | none => simp
  | some c =>
    have hc : c ≠ '\r' := h c (List.mem_of_getLast?_eq_some hl)
    simp [hc]

theorem scanLinesAux_final (q : String) (hne : q.data ≠ [])
    (hcr : ∀ c ∈ q.data, c ≠ '\r') :
    scanLinesAux q.data.reverse [] = [q] := by
  have hrev : q.data.reverse.isEmpty = false := by
    simp [List.isEmpty_iff, hne]
  simp only [scanLinesAux, hrev, Bool.false_eq_true, if_false, List.reverse_reverse]
  rw [dropCR_no_cr q.data hcr]

theorem scanLines_join (l : List String) :
    (∀ q ∈ l, q.data ≠ [] ∧ ∀ c ∈ q.data, c ≠ '\n' ∧ c ≠ '\r') → l ≠ [] →
      scanLines (joinWithBlankLines l) = List.intersperse "" l := by
  induction l with
  | nil =>
    intro _ hl
    exact absurd rfl hl
  | cons q tail ih =>
    intro hq _
    obtain ⟨h1, h2⟩ := hq q (by simp)
    cases tail with
    | nil =>
      show scanLinesAux [] (q.data) = [q]
      have happ := scanLinesAux_append q.data [] [] (fun c hc => (h2 c hc).1)
      simp only [List.append_nil] at happ
      rw [happ]
      exact scanLinesAux_final q h1 (fun c hc => (h2 c hc).2)
    | cons q2 rest =>
      have hdata : (joinWithBlankLines (q :: q2 :: rest)).data
          = q.data ++ ('\n' :: '\n' :: (joinWithBlankLines (q2 :: rest)).data) := by
        show (q ++ "\n\n" ++ joinWithBlankLines (q2 :: rest)).data = _
        simp [String.data_append]
      show scanLinesAux [] (joinWithBlankLines (q :: q2 :: rest)).data = _
      rw [hdata, scanLinesAux_append q.data [] _ (fun c hc => (h2 c hc).1)]
      simp only [List.append_nil, scanLinesAux, if_pos rfl, List.reverse_reverse,
        List.reverse_nil]
      rw [dropCR_no_cr q.data (fun c hc => (h2 c hc).2)]
      rw [show String.mk (dropCR []) = "" from rfl]
      have ihr := ih (fun x hx => hq x (List.mem_cons_of_mem _ hx)) (by simp)
      rw [show scanLines (joinWithBlankLines (q2 :: rest))
          = scanLinesAux [] (joinWithBlankLines (q2 :: rest)).data from rfl] at ihr
      rw [ihr]
      simp [List.intersperse]

theorem parseLoop_cons (qs acc : List String) (line : String) (rest : List String) :
    parseLoop qs acc (line :: rest) =
      if hasPrefix line "#" then parseLoop qs acc rest
      else
        let l1 := if hasPrefix line "\\#" then String.mk (line.data.drop 1) else line
        if l1.length > 0 then parseLoop qs (acc ++ [if l1 = "\\" then "" else l1]) rest
        else if acc.length > 0 then
          parseLoop (qs ++ [String.intercalate "\n" acc]) [] rest
        else parseLoop qs acc rest := rfl

theorem parseLoop_plain (q : String) (hq : goodQuote q) (qs acc : List String)
    (rest : List String) :
    parseLoop qs acc (q :: rest) = parseLoop qs (acc ++ [q]) rest := by
  obtain ⟨h1, _, h3, h4, h5⟩ := hq
  have hlen : q.length > 0 := List.length_pos.mpr h1
  have hl1 : (if hasPrefix q "\\#" then String.mk (q.data.drop 1) else q) = q :=
    if_neg (by simp [h4])
  rw [parseLoop_cons, if_neg (by simp [h3])]
  dsimp only
  rw [hl1, if_pos hlen, if_neg h5]

theorem parseLoop_intersperse (l : List String) :
    (∀ q ∈ l, goodQuote q) → l ≠ [] →
      ∀ qs, parseLoop qs [] (List.intersperse "" l) = qs ++ l := by
  induction l with
  | nil =>
    intro _ hl
    exact absurd rfl hl
  | cons q tail ih =>
    intro hq _
    cases tail with
    | nil =>
      intro qs
      show parseLoop qs [] [q] = qs ++ [q]
      rw [parseLoop_plain q (hq q (by simp))]
      show qs ++ [String.intercalate "\n" [q]] = qs ++ [q]
      rfl
    | cons q2 rest =>
      intro qs
      have hint : List.intersperse "" (q :: q2 :: rest)
          = q :: "" :: List.intersperse "" (q2 :: rest) := by
        simp [List.intersperse]
      rw [hint, parseLoop_plain q (hq q (by simp))]
      have hblank : parseLoop qs [q] ("" :: List.intersperse "" (q2 :: rest))
          = parseLoop (qs ++ [q]) [] (List.intersperse "" (q2 :: rest)) := rfl
      rw [List.nil_append, hblank,
        ih (fun x hx => hq x (List.mem_cons_of_mem _ hx)) (by simp) (qs ++ [q])]
      simp

/-- C2 counterexample: the quote `\#foo` is single-line (no newline, in
particular no blank line in its text) and does not begin with `#`, yet
serializing the one-element list and re-parsing yields `#foo`, not
`\#foo`: the parser strips the backslash escape. -/
theorem c2_counterexample :
    ((∀ c ∈ "\\#foo".data, c ≠ '\n') ∧ "\\#foo".data ≠ [] ∧
        hasPrefix "\\#foo" "#" = false) ∧
      (parseQuotes (joinWithBlankLines ["\\#foo"])).1 = ["#foo"] ∧
      (parseQuotes (joinWithBlankLines ["\\#foo"])).1 ≠ ["\\#foo"] := by
  decide

/-- C2 (amended): serializing a non-empty list of quotes by joining them
with blank lines and re-parsing reproduces the list exactly, provided
each quote is single-line (no newline or carriage return), non-empty,
does not begin with `#` or with the escape `\#`, and is not the bare
escape `\`. -/
theorem c2_round_trip_amended (l : List String) (hl : l ≠ [])
    (hq : ∀ q ∈ l, goodQuote q) :
    (parseQuotes (joinWithBlankLines l)).1 = l := by
  have hscan : ∀ q ∈ l, q.data ≠ [] ∧ ∀ c ∈ q.data, c ≠ '\n' ∧ c ≠ '\r' := by
    intro q hm
    obtain ⟨h1, h2, _⟩ := hq q hm
    exact ⟨h1, h2⟩
  show parseLoop [] [] (scanLines (joinWithBlankLines l)) = l
  rw [scanLines_join l hscan hl, parseLoop_intersperse l hq hl []]
  rfl

theorem c2_round_trip_witness :
    (parseQuotes (joinWithBlankLines ["alpha", "beta"])).1 = ["alpha", "beta"] :=
  c2_round_trip_amended ["alpha", "beta"] (by decide) (by decide)

end Httpqotdd
